import Mathlib

/-!
Shallow embedding of the InterfaceBoardFirmware event core
(src/ButtonEncoder.h, src/ButtonEncoder.cpp, src/Main.cpp, src/Config.h).

The quadrature decoder, the button debouncer and the command handler are
translated into pure Lean functions.  Machine integers are modelled as
`Nat`/`Int` with explicit reduction modulo 2^8 or 2^32 where the C types
(`int8_t`, `uint8_t`, `uint32_t`) make overflow observable.
-/

namespace Firmware

/-- Reduction of an integer into the `int8_t` range [-128, 127]
(wrap modulo 256, as performed by avr-gcc on narrowing stores). -/
def i8 (x : Int) : Int := (x + 128) % 256 - 128

/-- Reduction of a natural into the `uint8_t` range [0, 255]. -/
def u8 (x : Nat) : Nat := x % 256

/-- Reduction of a natural into the `uint32_t` range (modulo 2^32). -/
def u32 (x : Nat) : Nat := x % 4294967296

/-- The 16-entry quadrature lookup table of `ButtonEncoder.h` line 193:
`{ 0, -1, 1, 2, 1, 0, 2, -1, -1, -2, 0, 1, -2, 1, -1, 0 }`. -/
def table : List Int := [0, -1, 1, 2, 1, 0, 2, -1, -1, -2, 0, 1, -2, 1, -1, 0]

/-- Table lookup `table[key]`. -/
def tableAt (key : Nat) : Int := table.getD key 0

/-- The 2-bit reading `digitalRead(pina) << 1 | digitalRead(pinb)`. -/
def readingOf (a b : Bool) : Nat := (cond a 1 0) * 2 + (cond b 1 0)

/-- The per-instance static state of `encoder_isr` together with the shared
counter `encoder_detents` (`volatile int8_t`). -/
structure EncState where
  prev_reading : Nat
  encoder_value : Int
  encoder_detents : Int
  deriving DecidableEq

/-- Initial decoder state: `prev_reading = 3`, `encoder_value = 0`,
`encoder_detents = 0`. -/
def encInit : EncState := ⟨3, 0, 0⟩

/-- One invocation of `ButtonEncoder::encoder_isr` on the current levels
of the two quadrature lines (`ButtonEncoder.h` lines 184-210). -/
def encoder_isr (a b : Bool) (s : EncState) : EncState :=
  let reading := readingOf a b
  let v := i8 (s.encoder_value + tableAt (s.prev_reading * 4 + reading))
  if 4 ≤ v then
    ⟨reading, v - 4, i8 (s.encoder_detents + 1)⟩
  else if v ≤ -4 then
    ⟨reading, v + 4, i8 (s.encoder_detents - 1)⟩
  else
    ⟨reading, v, s.encoder_detents⟩

/-- Drain operation `ButtonEncoder::process_encoder`: atomically read
`encoder_detents`, reset it to 0 and return the prior value. -/
def process_encoder (s : EncState) : Int × EncState :=
  (s.encoder_detents, { s with encoder_detents := 0 })

/-- Fold of `encoder_isr` over a sequence of line readings, in arrival order. -/
def runEnc (es : List (Bool × Bool)) (s : EncState) : EncState :=
  es.foldl (fun s e => encoder_isr e.1 e.2 s) s

/-- Debounce threshold `DEBOUNCE_TIME_US` from `Config.h` line 38. -/
def DEBOUNCE_TIME_US : Nat := 5000

/-- The static state of `button_isr` together with the shared counter
`button_presses` (`volatile uint8_t`). -/
structure BtnState where
  previous_state : Bool
  prev_edge_time : Nat
  button_presses : Nat
  deriving DecidableEq

/-- Initial button state: `previous_state = true`, `prev_edge_time = 0`,
`button_presses = 0`. -/
def btnInit : BtnState := ⟨true, 0, 0⟩

/-- Wrapping `uint32_t` subtraction `a - b`, as used for `now - prev_edge_time`. -/
def usub32 (a b : Nat) : Nat := (u32 a + 4294967296 - u32 b) % 4294967296

/-- One invocation of `ButtonEncoder::button_isr` on the current button level
and the current `micros()` value (`ButtonEncoder.h` lines 162-182). -/
def button_isr (level : Bool) (now : Nat) (s : BtnState) : BtnState :=
  if level = s.previous_state then s
  else
    let presses :=
      if DEBOUNCE_TIME_US < usub32 now s.prev_edge_time ∧ s.previous_state then
        u8 (s.button_presses + 1)
      else s.button_presses
    ⟨!s.previous_state, u32 now, presses⟩

/-- Drain operation `ButtonEncoder::process_button`: atomically read
`button_presses`, reset it to 0 and return the prior value. -/
def process_button (s : BtnState) : Nat × BtnState :=
  (s.button_presses, { s with button_presses := 0 })

/-- Fold of `button_isr` over a sequence of (level, time) edges, in arrival
order. -/
def runBtn (es : List (Bool × Nat)) (s : BtnState) : BtnState :=
  es.foldl (fun s e => button_isr e.1 e.2 s) s

/-- Command status codes used by `processCommand` in `Main.cpp`. -/
inductive Status where
  | COMMAND_OK
  | INVALID_ARGUMENTS
  | COMMAND_NOT_SUPPORTED
  deriving DecidableEq

/-- Result of a command handler: a status and the number of bytes written. -/
structure cmd_result where
  status : Status
  len : Nat
  deriving DecidableEq

/-- Command code `Commands::GET_LAST_MEASUREMENT` (Main.cpp line 34). -/
def GET_LAST_MEASUREMENT : Nat := 0x80

/-- Command code `Commands::GET_LAST_STATUS` (Main.cpp line 35). -/
def GET_LAST_STATUS : Nat := 0x81

/-- Observable side effects performed by `processCommand`, in program order:
writes to the STATUS pin (`clear_interrupt_pin` / `assert_interrupt_pin`)
and the two counter drains. -/
inductive SideEffect where
  | clearPin
  | assertPin
  | drainPresses
  | drainDetents
  deriving DecidableEq

/-- The global mutable state of `Main.cpp` that `processCommand` touches:
the encoder/button state, `hopper_empty`, `measurement[0..1]` (`uint16_t`)
and the level of the STATUS interrupt pin. -/
structure SysState where
  enc : EncState
  btn : BtnState
  hopper_empty : Bool
  measurement0 : Nat
  measurement1 : Nat
  status_pin : Bool
  deriving DecidableEq

/-- Everything a call to `processCommand` produces: the returned
`cmd_result`, the output buffer after the call, the global state after the
call, and the trace of pin writes and drains it performed, in order. -/
structure CmdOutcome where
  result : cmd_result
  dataout : List Nat
  state : SysState
  trace : List SideEffect
  deriving DecidableEq

/-- Translation of `processCommand` from `Main.cpp` lines 47-83.  The output
buffer is a list of bytes; writes `dataout[i] = x` become `List.set i (u8 x)`.
The int8 drain result is stored into a `uint8_t` byte via its representative
modulo 256. -/
def processCommand (cmd len : Nat) (dataout : List Nat) (maxLen : Nat)
    (s : SysState) : CmdOutcome :=
  if cmd = GET_LAST_MEASUREMENT then
    if len ≠ 0 ∨ maxLen < 4 then
      ⟨⟨.INVALID_ARGUMENTS, 0⟩, dataout, s, []⟩
    else
      let d := ((((dataout.set 0 (u8 (s.measurement0 / 256))).set 1
          (u8 s.measurement0)).set 2 (u8 (s.measurement1 / 256))).set 3
          (u8 s.measurement1))
      ⟨⟨.COMMAND_OK, 4⟩, d, s, []⟩
  else if cmd = GET_LAST_STATUS then
    if len ≠ 0 ∨ maxLen < 2 then
      ⟨⟨.INVALID_ARGUMENTS, 0⟩, dataout, s, []⟩
    else
      let bp := (process_button s.btn).1
      let btn1 := (process_button s.btn).2
      let ed := (process_encoder s.enc).1
      let enc1 := (process_encoder s.enc).2
      let b0 := min 0x7F bp
      let b0 := if s.hopper_empty then b0 ||| 0x80 else b0
      let d := (dataout.set 0 b0).set 1 (ed % 256).toNat
      ⟨⟨.COMMAND_OK, 2⟩, d,
        { s with enc := enc1, btn := btn1, status_pin := false },
        [.clearPin, .drainPresses, .drainDetents]⟩
  else
    ⟨⟨.COMMAND_NOT_SUPPORTED, 0⟩, dataout, s, []⟩

/-- Ghost-instrumented decoder state: the concrete `EncState` together with
the exact (unbounded) running sum of table deltas and the exact number of
detent events emitted (`+1` per increment, `-1` per decrement). -/
structure GhostState where
  st : EncState
  total : Int
  emitted : Int
  deriving DecidableEq

/-- Initial ghost state. -/
def ghostInit : GhostState := ⟨encInit, 0, 0⟩

/-- One `encoder_isr` step with ghost bookkeeping: the concrete component
evolves exactly by `encoder_isr`; `total` accumulates the table delta and
`emitted` counts the detent events of this step. -/
def encStepG (a b : Bool) (g : GhostState) : GhostState :=
  let reading := readingOf a b
  let d := tableAt (g.st.prev_reading * 4 + reading)
  let v := i8 (g.st.encoder_value + d)
  let emit : Int := if 4 ≤ v then 1 else if v ≤ -4 then -1 else 0
  ⟨encoder_isr a b g.st, g.total + d, g.emitted + emit⟩

/-- Fold of the ghost-instrumented step over a reading sequence from the
initial state. -/
def runGhost (es : List (Bool × Bool)) : GhostState :=
  es.foldl (fun g e => encStepG e.1 e.2 g) ghostInit

/-- Quadrature phase of a 2-bit reading along the clockwise cycle
`11 -> 01 -> 00 -> 10 -> 11`: phase 0 is the rest reading 3, and one
clockwise edge advances the phase by 1. -/
def quadPhase : Nat → Int
  | 3 => 0
  | 1 => 1
  | 0 => 2
  | _ => 3

/-- Decoder invariant carried through every `encStepG` step: the stored
`prev_reading` is a 2-bit value, `encoder_value` equals the exact delta sum
minus 4 per emitted detent, it stays strictly between -4 and 4, and the
delta sum is congruent modulo 4 to the quadrature phase of the current
reading (the initial reading has phase 0). -/
def EncInv (g : GhostState) : Prop :=
  g.st.prev_reading < 4 ∧
  g.st.encoder_value = g.total - 4 * g.emitted ∧
  -4 < g.st.encoder_value ∧ g.st.encoder_value < 4 ∧
  (g.total - quadPhase g.st.prev_reading) % 4 = 0

/-- One full clockwise quadrature cycle of readings, `11 -> 01 -> 00 -> 10 -> 11`
expressed as the (lineA, lineB) levels seen at each edge after leaving rest. -/
def cwCycle : List (Bool × Bool) := [(false, true), (false, false), (true, false), (true, true)]

/-- One full counter-clockwise quadrature cycle, `11 -> 10 -> 00 -> 01 -> 11`. -/
def ccwCycle : List (Bool × Bool) := [(true, false), (false, false), (false, true), (true, true)]

/-- Edge sequence of `n` complete clockwise cycles. -/
def cwSeq : Nat → List (Bool × Bool)
  | 0 => []
  | n + 1 => cwCycle ++ cwSeq n

/-- Edge sequence of `n` complete counter-clockwise cycles. -/
def ccwSeq : Nat → List (Bool × Bool)
  | 0 => []
  | n + 1 => ccwCycle ++ ccwSeq n

/-- Modelled from the spec, step 3 of the per-edge algorithm: the loop
`while accumulated_value >= 4: DetentCounter += 1; accumulated_value -= 4`,
written with an explicit iteration budget. -/
def specLoopCW : Nat → Int × Int → Int × Int
  | 0, vd => vd
  | fuel + 1, (v, dc) => if 4 ≤ v then specLoopCW fuel (v - 4, dc + 1) else (v, dc)

/-- Modelled from the spec, step 4 of the per-edge algorithm: the loop
`while accumulated_value <= -4: DetentCounter -= 1; accumulated_value += 4`,
written with an explicit iteration budget. -/
def specLoopCCW : Nat → Int × Int → Int × Int
  | 0, vd => vd
  | fuel + 1, (v, dc) => if v ≤ -4 then specLoopCCW fuel (v + 4, dc - 1) else (v, dc)

/-- Modelled from the spec: full normalization of the accumulated value by
the step-3 loop followed by the step-4 loop, returning the normalized value
and the net detent-counter change.  The budget `v.natAbs` dominates the
number of iterations either while-loop can make. -/
def specNormalize (v : Int) : Int × Int :=
  let vd := specLoopCW v.natAbs (v, 0)
  specLoopCCW vd.1.natAbs vd

/-- The single if/else-if normalization performed by `encoder_isr`
(`ButtonEncoder.h` lines 201-209), returning the normalized value and the
detent-counter change of that one step. -/
def codeNormalize (v : Int) : Int × Int :=
  if 4 ≤ v then (v - 4, 1) else if v ≤ -4 then (v + 4, -1) else (v, 0)

/-- Alternating button-edge train: `n` edges at 10001-microsecond spacing,
starting with a falling edge, so that every pair of edges is one qualifying
press (both edges clear the 5000-microsecond debounce window). -/
def pressTrain (n : Nat) : List (Bool × Nat) :=
  (List.range n).map fun j => (j % 2 == 1, 10001 * (j + 1))

section Lemmas

lemma i8_eq_self {x : Int} (h1 : -128 ≤ x) (h2 : x ≤ 127) : i8 x = x := by
  unfold i8; omega

lemma readingOf_lt (a b : Bool) : readingOf a b < 4 := by
  cases a <;> cases b <;> decide

lemma tableAt_bounds (k : Nat) : -2 ≤ tableAt k ∧ tableAt k ≤ 2 := by
  rcases Nat.lt_or_ge k 16 with h | h
  · interval_cases k <;> decide
  · rw [tableAt, List.getD_eq_default]
    · decide
    · simpa [table] using h

lemma tableAt_phase : ∀ p < 4, ∀ r < 4,
    (tableAt (p * 4 + r) - (quadPhase r - quadPhase p)) % 4 = 0 := by decide

lemma encInv_step (a b : Bool) {g : GhostState} (h : EncInv g) : EncInv (encStepG a b g) := by
  obtain ⟨⟨p, v, dd⟩, T, E⟩ := g
  obtain ⟨hp, heq, hl, hr, hm⟩ := h
  simp only [EncInv] at *
  have hr4 := readingOf_lt a b
  have hb := tableAt_bounds (p * 4 + readingOf a b)
  have hph := tableAt_phase p hp _ hr4
  set d := tableAt (p * 4 + readingOf a b) with hd
  have hi : i8 (v + d) = v + d := i8_eq_self (by omega) (by omega)
  simp only [encStepG, encoder_isr, ← hd, hi] at *
  split_ifs with h1 h2 <;> simp_all <;> omega

lemma encInv_fold (es : List (Bool × Bool)) {g : GhostState} (h : EncInv g) :
    EncInv (es.foldl (fun g e => encStepG e.1 e.2 g) g) := by
  induction es generalizing g with
  | nil => exact h
  | cons e tl ih => exact ih (encInv_step e.1 e.2 h)

lemma encInv_runGhost (es : List (Bool × Bool)) : EncInv (runGhost es) :=
  encInv_fold es (by constructor <;> decide)

lemma ghost_st_eq (es : List (Bool × Bool)) (g : GhostState) :
    (es.foldl (fun g e => encStepG e.1 e.2 g) g).st = runEnc es g.st := by
  induction es generalizing g with
  | nil => rfl
  | cons e tl ih => simpa [runEnc, List.foldl_cons] using ih (encStepG e.1 e.2 g)

lemma cwCycle_run (d : Int) : runEnc cwCycle ⟨3, 0, d⟩ = ⟨3, 0, i8 (d + 1)⟩ := by
  simp [runEnc, cwCycle, encoder_isr, readingOf, tableAt, table, i8]

lemma ccwCycle_run (d : Int) : runEnc ccwCycle ⟨3, 0, d⟩ = ⟨3, 0, i8 (d - 1)⟩ := by
  simp [runEnc, ccwCycle, encoder_isr, readingOf, tableAt, table, i8]

lemma cwSeq_run : ∀ (n : Nat) (d : Int), -128 ≤ d → d + n ≤ 127 →
    runEnc (cwSeq n) ⟨3, 0, d⟩ = ⟨3, 0, d + n⟩ := by
  intro n
  induction n with
  | zero => intro d h1 h2; simp [cwSeq, runEnc]
  | succ n ih =>
    intro d h1 h2
    push_cast at h2
    have hsplit : runEnc (cwSeq (n + 1)) ⟨3, 0, d⟩ = runEnc (cwSeq n) (runEnc cwCycle ⟨3, 0, d⟩) := by
      simp [cwSeq, runEnc, List.foldl_append]
    rw [hsplit, cwCycle_run, i8_eq_self (by omega) (by omega)]
    rw [ih (d + 1) (by omega) (by omega)]
    congr 1
    push_cast
    ring

lemma ccwSeq_run : ∀ (n : Nat) (d : Int), -128 ≤ d - n → d ≤ 127 →
    runEnc (ccwSeq n) ⟨3, 0, d⟩ = ⟨3, 0, d - n⟩ := by
  intro n
  induction n with
  | zero => intro d h1 h2; simp [ccwSeq, runEnc]
  | succ n ih =>
    intro d h1 h2
    push_cast at h1
    have hsplit : runEnc (ccwSeq (n + 1)) ⟨3, 0, d⟩ = runEnc (ccwSeq n) (runEnc ccwCycle ⟨3, 0, d⟩) := by
      simp [ccwSeq, runEnc, List.foldl_append]
    rw [hsplit, ccwCycle_run, i8_eq_self (by omega) (by omega)]
    rw [ih (d - 1) (by omega) (by omega)]
    congr 1
    push_cast
    ring

lemma cwSeq_succ_right : ∀ n : Nat, cwSeq (n + 1) = cwSeq n ++ cwCycle := by
  intro n
  induction n with
  | zero => rfl
  | succ n ih =>
    show cwCycle ++ (cwCycle ++ cwSeq n) = (cwCycle ++ cwSeq n) ++ cwCycle
    rw [List.append_assoc, ← ih]
    rfl

lemma encoder_isr_codeNormalize (a b : Bool) (s : EncState) :
    encoder_isr a b s =
      let v := i8 (s.encoder_value + tableAt (s.prev_reading * 4 + readingOf a b))
      ⟨readingOf a b, (codeNormalize v).1,
        if (codeNormalize v).2 = 0 then s.encoder_detents
        else i8 (s.encoder_detents + (codeNormalize v).2)⟩ := by
  simp only [encoder_isr, codeNormalize]
  split_ifs <;> simp_all [sub_eq_add_neg]

lemma usub32_u32_right (a b : Nat) : usub32 a (u32 b) = usub32 a b := by
  unfold usub32 u32
  omega

lemma button_isr_of_ne {l : Bool} {s : BtnState} (h : l ≠ s.previous_state) (now : Nat) :
    button_isr l now s =
      ⟨!s.previous_state, u32 now,
        if DEBOUNCE_TIME_US < usub32 now s.prev_edge_time ∧ s.previous_state then
          u8 (s.button_presses + 1)
        else s.button_presses⟩ := by
  rw [button_isr, if_neg h]

lemma lor_128 : ∀ m < 128, m ||| 128 = m + 128 := by decide

lemma button_isr_fall (t e p : Nat) (h : DEBOUNCE_TIME_US < usub32 t e) :
    button_isr false t ⟨true, e, p⟩ = ⟨false, u32 t, u8 (p + 1)⟩ := by
  rw [button_isr, if_neg (by simp)]
  simp [h]

lemma button_isr_rise_nocount (t e p : Nat) :
    button_isr true t ⟨false, e, p⟩ = ⟨true, u32 t, p⟩ := by
  rw [button_isr, if_neg (by simp)]
  simp

lemma pressTrain_succ (n : Nat) :
    pressTrain (n + 1) = pressTrain n ++ [(n % 2 == 1, 10001 * (n + 1))] := by
  simp [pressTrain, List.range_succ]

lemma pressTrain_run : ∀ k ≤ 100000,
    runBtn (pressTrain (2 * k)) btnInit = ⟨true, 10001 * (2 * k), k % 256⟩ := by
  intro k
  induction k with
  | zero => intro _; rfl
  | succ k ih =>
    intro hk
    have hsplit : pressTrain (2 * (k + 1)) =
        (pressTrain (2 * k) ++ [(false, 10001 * (2 * k + 1))]) ++
          [(true, 10001 * (2 * k + 2))] := by
      have e1 : 2 * (k + 1) = (2 * k + 1) + 1 := by ring
      rw [e1, pressTrain_succ, pressTrain_succ]
      norm_num [Nat.mul_mod_right, Nat.mul_add_mod]
    rw [runBtn] at *
    rw [hsplit, List.foldl_append, List.foldl_append, ih (by omega)]
    have hfall : button_isr false (10001 * (2 * k + 1)) ⟨true, 10001 * (2 * k), k % 256⟩ =
        ⟨false, u32 (10001 * (2 * k + 1)), u8 (k % 256 + 1)⟩ :=
      button_isr_fall _ _ _ (by unfold usub32 u32 DEBOUNCE_TIME_US; omega)
    have hrise : button_isr true (10001 * (2 * k + 2))
          ⟨false, u32 (10001 * (2 * k + 1)), u8 (k % 256 + 1)⟩ =
        ⟨true, u32 (10001 * (2 * k + 2)), u8 (k % 256 + 1)⟩ :=
      button_isr_rise_nocount _ _ _
    simp only [List.foldl_cons, List.foldl_nil, hfall, hrise]
    have h32 : u32 (10001 * (2 * k + 2)) = 10001 * (2 * (k + 1)) := by
      unfold u32; omega
    have h8 : u8 (k % 256 + 1) = (k + 1) % 256 := by
      unfold u8; omega
    rw [h32, h8]

end Lemmas

/-- C1 (amended): running `n` complete clockwise quadrature cycles
(`11 -> 01 -> 00 -> 10 -> 11` repeated `n` times) from rest and then
draining via `process_encoder` returns exactly `n` provided `n ≤ 127`, and
`n` counter-clockwise cycles return `-n` provided `n ≤ 128`; in both cases
the residual state has `encoder_value = 0` and `encoder_detents = 0`.  The
bounds are forced by the 8-bit signed detent counter, which wraps at 128
clockwise cycles (see the counterexample). -/
theorem detent_accuracy (n : Nat) :
    (n ≤ 127 → process_encoder (runEnc (cwSeq n) encInit) = ((n : Int), ⟨3, 0, 0⟩)) ∧
    (n ≤ 128 → process_encoder (runEnc (ccwSeq n) encInit) = (-(n : Int), ⟨3, 0, 0⟩)) := by
  constructor
  · intro h
    have := cwSeq_run n 0 (by omega) (by omega)
    rw [show encInit = (⟨3, 0, 0⟩ : EncState) from rfl, this]
    simp [process_encoder]
  · intro h
    have := ccwSeq_run n 0 (by omega) (by omega)
    rw [show encInit = (⟨3, 0, 0⟩ : EncState) from rfl, this]
    simp [process_encoder]

/-- Witness for C1: 3 clockwise cycles drain to 3, and 2 counter-clockwise
cycles drain to -2, each leaving a zeroed decoder state. -/
theorem detent_accuracy_witness :
    process_encoder (runEnc (cwSeq 3) encInit) = ((3 : Int), ⟨3, 0, 0⟩) ∧
    process_encoder (runEnc (ccwSeq 2) encInit) = ((-2 : Int), ⟨3, 0, 0⟩) :=
  ⟨(detent_accuracy 3).1 (by norm_num), by
    have h := (detent_accuracy 2).2 (by norm_num)
    simpa using h⟩

/-- Counterexample for C1 as stated: after 128 complete clockwise cycles the
8-bit signed detent counter has wrapped, so the drain returns -128, not 128. -/
theorem detent_accuracy_cex :
    (process_encoder (runEnc (cwSeq 128) encInit)).1 = -128 ∧
    (process_encoder (runEnc (cwSeq 128) encInit)).1 ≠ 128 := by
  have h127 : runEnc (cwSeq 127) encInit = ⟨3, 0, 127⟩ := by
    have := cwSeq_run 127 0 (by omega) (by norm_num)
    simpa [encInit] using this
  have hsplit : runEnc (cwSeq 128) encInit = runEnc cwCycle (runEnc (cwSeq 127) encInit) := by
    rw [cwSeq_succ_right]
    simp [runEnc, List.foldl_append]
  rw [hsplit, h127, cwCycle_run]
  constructor
  · norm_num [process_encoder, i8]
  · norm_num [process_encoder, i8]

/-- C2: after any sequence of per-edge updates, including invalid
both-lines-changed transitions, the accumulated value equals the cumulative
table-delta sum minus 4 per emitted detent and stays strictly inside
(-4, 4) — so a detent is emitted exactly when the delta sum crosses a
multiple-of-4 boundary; the delta sum is congruent modulo 4 to the
quadrature-phase difference between the current and the initial reading;
and every both-lines-changed transition is mapped by the table to +2 or -2
(an even delta), so invalid transitions alone shift absolute position only
by multiples of 4 and never corrupt detent-boundary detection. -/
theorem detent_boundary_inv (es : List (Bool × Bool)) (a b : Bool) :
    (runGhost es).st.encoder_value = (runGhost es).total - 4 * (runGhost es).emitted ∧
    (-4 < (runGhost es).st.encoder_value ∧ (runGhost es).st.encoder_value < 4) ∧
    ((runGhost es).total -
      (quadPhase (runGhost es).st.prev_reading - quadPhase encInit.prev_reading)) % 4 = 0 ∧
    (tableAt (readingOf a b * 4 + readingOf (!a) (!b)) = 2 ∨
      tableAt (readingOf a b * 4 + readingOf (!a) (!b)) = -2) := by
  obtain ⟨h1, h2, h3, h4, h5⟩ := encInv_runGhost es
  refine ⟨h2, ⟨h3, h4⟩, ?_, by cases a <;> cases b <;> decide⟩
  simpa [encInit, quadPhase] using h5

/-- C3: servicing `GET_LAST_STATUS` with 3 queued presses, a net detent
delta of -2 and the hopper-empty flag set returns `COMMAND_OK` with exactly
the bytes `0x83` and `0xFE`, and immediately afterwards both counters are 0
(whatever the other state components are). -/
theorem status_byte_layout (r : Nat) (v : Int) (bs : Bool) (bt m0 m1 : Nat) (pin : Bool) :
    processCommand GET_LAST_STATUS 0 [0, 0] 2 ⟨⟨r, v, -2⟩, ⟨bs, bt, 3⟩, true, m0, m1, pin⟩ =
      ⟨⟨.COMMAND_OK, 2⟩, [0x83, 0xFE], ⟨⟨r, v, 0⟩, ⟨bs, bt, 0⟩, true, m0, m1, false⟩,
        [.clearPin, .drainPresses, .drainDetents]⟩ := by
  simp [processCommand, process_button, process_encoder, GET_LAST_STATUS, GET_LAST_MEASUREMENT]

/-- C4: a button edge at the recorded level is a no-op; a first real edge
increments the press counter exactly when it is a falling edge more than
5000 microseconds after the previous edge; a second real edge within 5000
microseconds of the first never increments; and a third real edge more than
5000 microseconds after the second is eligible to count (it counts exactly
when it is a falling edge), because the edge time and level are recorded
even for suppressed edges. -/
theorem debounce_suppression (s : BtnState) (l1 l2 l3 : Bool) (t t1 t2 t3 : Nat)
    (h1 : l1 ≠ s.previous_state)
    (h2 : l2 ≠ (button_isr l1 t1 s).previous_state)
    (h3 : l3 ≠ (button_isr l2 t2 (button_isr l1 t1 s)).previous_state)
    (hlt : usub32 t2 t1 < DEBOUNCE_TIME_US)
    (hgt : DEBOUNCE_TIME_US < usub32 t3 t2) :
    button_isr s.previous_state t s = s ∧
    (button_isr l1 t1 s).button_presses =
      (if DEBOUNCE_TIME_US < usub32 t1 s.prev_edge_time ∧ s.previous_state then
        u8 (s.button_presses + 1)
      else s.button_presses) ∧
    (button_isr l2 t2 (button_isr l1 t1 s)).button_presses =
      (button_isr l1 t1 s).button_presses ∧
    (button_isr l3 t3 (button_isr l2 t2 (button_isr l1 t1 s))).button_presses =
      (if (button_isr l2 t2 (button_isr l1 t1 s)).previous_state then
        u8 ((button_isr l2 t2 (button_isr l1 t1 s)).button_presses + 1)
      else (button_isr l2 t2 (button_isr l1 t1 s)).button_presses) := by
  refine ⟨by rw [button_isr, if_pos rfl], ?_, ?_, ?_⟩
  · rw [button_isr_of_ne h1]
  · rw [button_isr_of_ne h2, button_isr_of_ne h1]
    have : ¬(DEBOUNCE_TIME_US < usub32 t2 (u32 t1) ∧ (!s.previous_state) = true) := by
      rw [usub32_u32_right]
      exact fun hc => absurd hc.1 (by omega)
    rw [if_neg this]
  · rw [button_isr_of_ne h3]
    rw [button_isr_of_ne h2, button_isr_of_ne h1] at h3 ⊢
    have hgt' : DEBOUNCE_TIME_US < usub32 t3 (u32 t2) := by
      rwa [usub32_u32_right]
    simp only [hgt', true_and]

/-- Witness for C4 at concrete inputs: falling edge at 6000 counts, rising
edge at 9000 (3000 microseconds later) is suppressed, falling edge at 20000
(11000 microseconds after the second) counts again. -/
theorem debounce_suppression_witness :
    (button_isr true 0 btnInit = btnInit) ∧
    (button_isr false 6000 btnInit).button_presses =
      (if DEBOUNCE_TIME_US < usub32 6000 btnInit.prev_edge_time ∧ btnInit.previous_state then
        u8 (btnInit.button_presses + 1)
      else btnInit.button_presses) ∧
    (button_isr true 9000 (button_isr false 6000 btnInit)).button_presses =
      (button_isr false 6000 btnInit).button_presses ∧
    (button_isr false 20000 (button_isr true 9000 (button_isr false 6000 btnInit))).button_presses =
      (if (button_isr true 9000 (button_isr false 6000 btnInit)).previous_state then
        u8 ((button_isr true 9000 (button_isr false 6000 btnInit)).button_presses + 1)
      else (button_isr true 9000 (button_isr false 6000 btnInit)).button_presses) := by
  have h := debounce_suppression btnInit false true false 0 6000 9000 20000
    (by decide) (by decide) (by decide) (by decide) (by decide)
  exact h

/-- C5: the status reply drains the press counter to 0 and reports
`min(127, prior value)` in bits 0-6 of byte 0; the press contribution never
reaches bit 7, which carries exactly the hopper flag. -/
theorem press_saturation (s : SysState) (d0 d1 : Nat) (rest : List Nat) (maxLen : Nat)
    (h : 2 ≤ maxLen) :
    ((processCommand GET_LAST_STATUS 0 (d0 :: d1 :: rest) maxLen s).dataout.getD 0 0 =
      min 127 s.btn.button_presses + (if s.hopper_empty then 128 else 0)) ∧
    ((processCommand GET_LAST_STATUS 0 (d0 :: d1 :: rest) maxLen s).dataout.getD 0 0) % 128 =
      min 127 s.btn.button_presses ∧
    ((processCommand GET_LAST_STATUS 0 (d0 :: d1 :: rest) maxLen s).dataout.getD 0 0) / 128 =
      (if s.hopper_empty then 1 else 0) ∧
    (processCommand GET_LAST_STATUS 0 (d0 :: d1 :: rest) maxLen s).state.btn.button_presses = 0 := by
  have hm : min 127 s.btn.button_presses < 128 := by omega
  have hlor := lor_128 _ hm
  rw [processCommand, if_neg (by decide), if_pos rfl, if_neg (by omega)]
  simp only [process_button, process_encoder]
  cases hh : s.hopper_empty <;> simp [hh, List.set, hlor] <;> omega

/-- Witness for C5: 130 accumulated presses are reported as 127 (saturated,
not wrapped) and the counter is 0 afterwards. -/
theorem press_saturation_witness :
    (processCommand GET_LAST_STATUS 0 [0, 0] 2
        ⟨encInit, ⟨true, 0, 130⟩, false, 0, 0, false⟩).dataout.getD 0 0 = 127 ∧
    (processCommand GET_LAST_STATUS 0 [0, 0] 2
        ⟨encInit, ⟨true, 0, 130⟩, false, 0, 0, false⟩).state.btn.button_presses = 0 := by
  have h := press_saturation ⟨encInit, ⟨true, 0, 130⟩, false, 0, 0, false⟩ 0 0 [] 2 (by norm_num)
  refine ⟨?_, h.2.2.2⟩
  have h1 := h.1
  norm_num at h1
  exact h1

/-- C6: starting from `encoder_value = 0`, after every complete per-edge
update the invariant `-4 < encoder_value < 4` holds; every table delta lies
in [-2, 2]; and on the pre-normalization range (-6, 6) that this yields,
the while-loops of spec steps 3-4 (`specNormalize`) coincide with the
single if/else-if of the code (`codeNormalize`), i.e. each loop body runs
at most once per edge. -/
theorem accumulated_value_inv (es : List (Bool × Bool)) (v : Int) (k : Nat) :
    (-4 < (runEnc es encInit).encoder_value ∧ (runEnc es encInit).encoder_value < 4) ∧
    (-2 ≤ tableAt k ∧ tableAt k ≤ 2) ∧
    (-6 < v → v < 6 → specNormalize v = codeNormalize v) := by
  refine ⟨?_, tableAt_bounds k, ?_⟩
  · have h := encInv_runGhost es
    have hst : (runGhost es).st = runEnc es encInit := ghost_st_eq es ghostInit
    rw [← hst]
    exact ⟨h.2.2.1, h.2.2.2.1⟩
  · intro h1 h2
    interval_cases v <;> decide

/-- Witness for C6 at concrete inputs: the empty run satisfies the value
bounds and the two normalizations agree at 5. -/
theorem accumulated_value_inv_witness :
    (-4 < (runEnc [] encInit).encoder_value ∧ (runEnc [] encInit).encoder_value < 4) ∧
    specNormalize 5 = codeNormalize 5 := by
  have h := accumulated_value_inv [] 5 0
  exact ⟨h.1, h.2.2 (by norm_num) (by norm_num)⟩

/-- C7: each drain returns the accumulated value and resets the counter in
the same operation, so a second drain with no intervening edges returns 0,
for the detent counter and the press counter alike. -/
theorem drain_idempotence (e : EncState) (b : BtnState) :
    (process_encoder e).1 = e.encoder_detents ∧
    (process_encoder (process_encoder e).2).1 = 0 ∧
    (process_button b).1 = b.button_presses ∧
    (process_button (process_button b).2).1 = 0 :=
  ⟨rfl, rfl, rfl, rfl⟩

/-- C8: `GET_LAST_MEASUREMENT` with a nonzero payload length or an output
buffer smaller than 4 bytes returns `INVALID_ARGUMENTS` and writes nothing;
`GET_LAST_STATUS` with a nonzero payload length or a buffer smaller than
2 bytes likewise; and any other command code returns
`COMMAND_NOT_SUPPORTED`. -/
theorem invalid_arguments_handling (cmd len maxLen : Nat) (dout : List Nat) (s : SysState) :
    ((len ≠ 0 ∨ maxLen < 4) →
      processCommand GET_LAST_MEASUREMENT len dout maxLen s =
        ⟨⟨.INVALID_ARGUMENTS, 0⟩, dout, s, []⟩) ∧
    ((len ≠ 0 ∨ maxLen < 2) →
      processCommand GET_LAST_STATUS len dout maxLen s =
        ⟨⟨.INVALID_ARGUMENTS, 0⟩, dout, s, []⟩) ∧
    (cmd ≠ GET_LAST_MEASUREMENT → cmd ≠ GET_LAST_STATUS →
      processCommand cmd len dout maxLen s =
        ⟨⟨.COMMAND_NOT_SUPPORTED, 0⟩, dout, s, []⟩) := by
  refine ⟨fun h => ?_, fun h => ?_, fun hc1 hc2 => ?_⟩
  · rw [processCommand, if_pos rfl, if_pos h]
  · rw [processCommand, if_neg (by decide), if_pos rfl, if_pos h]
  · rw [processCommand, if_neg hc1, if_neg hc2]

/-- Witness for C8 at concrete inputs: a 1-byte buffer for
`GET_LAST_MEASUREMENT`, a nonzero payload for `GET_LAST_STATUS`, and the
unknown command 0x90. -/
theorem invalid_arguments_handling_witness :
    (processCommand GET_LAST_MEASUREMENT 0 [0] 1
        ⟨encInit, btnInit, false, 0, 0, false⟩ =
      ⟨⟨.INVALID_ARGUMENTS, 0⟩, [0], ⟨encInit, btnInit, false, 0, 0, false⟩, []⟩) ∧
    (processCommand GET_LAST_STATUS 7 [0, 0] 2
        ⟨encInit, btnInit, false, 0, 0, false⟩ =
      ⟨⟨.INVALID_ARGUMENTS, 0⟩, [0, 0], ⟨encInit, btnInit, false, 0, 0, false⟩, []⟩) ∧
    (processCommand 0x90 0 [0, 0] 2 ⟨encInit, btnInit, false, 0, 0, false⟩ =
      ⟨⟨.COMMAND_NOT_SUPPORTED, 0⟩, [0, 0], ⟨encInit, btnInit, false, 0, 0, false⟩, []⟩) := by
  refine ⟨?_, ?_, ?_⟩
  · exact (invalid_arguments_handling 0x90 0 1 [0] _).1 (Or.inr (by norm_num))
  · exact (invalid_arguments_handling 0x90 7 2 [0, 0] _).2.1 (Or.inl (by norm_num))
  · exact (invalid_arguments_handling 0x90 0 2 [0, 0] _).2.2 (by decide) (by decide)

/-- C9: every serviced `GET_LAST_STATUS` request performs exactly the side
effects clear-pin, drain-presses, drain-detents in that order, whatever the
counter values are: the pin is cleared exactly once, before both drains,
and the handler never re-asserts the pin after draining. -/
theorem event_signal_cleared_once (s : SysState) (dout : List Nat) (maxLen : Nat)
    (h : 2 ≤ maxLen) :
    (processCommand GET_LAST_STATUS 0 dout maxLen s).trace =
      [.clearPin, .drainPresses, .drainDetents] ∧
    (processCommand GET_LAST_STATUS 0 dout maxLen s).trace.count SideEffect.clearPin = 1 ∧
    SideEffect.assertPin ∉ (processCommand GET_LAST_STATUS 0 dout maxLen s).trace ∧
    (processCommand GET_LAST_STATUS 0 dout maxLen s).trace.indexOf SideEffect.clearPin <
      (processCommand GET_LAST_STATUS 0 dout maxLen s).trace.indexOf SideEffect.drainPresses ∧
    (processCommand GET_LAST_STATUS 0 dout maxLen s).trace.indexOf SideEffect.clearPin <
      (processCommand GET_LAST_STATUS 0 dout maxLen s).trace.indexOf SideEffect.drainDetents := by
  have ht : (processCommand GET_LAST_STATUS 0 dout maxLen s).trace =
      [.clearPin, .drainPresses, .drainDetents] := by
    rw [processCommand, if_neg (by decide), if_pos rfl, if_neg (by omega)]
  refine ⟨ht, ?_, ?_, ?_, ?_⟩ <;> rw [ht] <;> decide

/-- Witness for C9 at a state with nonzero queued presses and detents and
the pin asserted: the trace is still clear-then-drain with no re-assert. -/
theorem event_signal_cleared_once_witness :
    (processCommand GET_LAST_STATUS 0 [0, 0] 2
        ⟨⟨3, 1, 5⟩, ⟨true, 0, 2⟩, true, 0, 0, true⟩).trace =
      [.clearPin, .drainPresses, .drainDetents] ∧
    SideEffect.assertPin ∉ (processCommand GET_LAST_STATUS 0 [0, 0] 2
        ⟨⟨3, 1, 5⟩, ⟨true, 0, 2⟩, true, 0, 0, true⟩).trace := by
  have h := event_signal_cleared_once ⟨⟨3, 1, 5⟩, ⟨true, 0, 2⟩, true, 0, 0, true⟩ [0, 0] 2
    (by norm_num)
  exact ⟨h.1, h.2.2.1⟩

/-- C10: the press counter accumulates modulo 256 between drains (each
qualifying falling edge stores `(count + 1) % 256` with no bound check), so
260 qualifying presses leave the counter at 4 and the status reply reports
`min(127, 4) = 4`, not 127 — saturation applies only at report time. -/
theorem press_counter_wraparound :
    (runBtn (pressTrain 520) btnInit).button_presses = 4 ∧
    (processCommand GET_LAST_STATUS 0 [0, 0] 2
        ⟨encInit, runBtn (pressTrain 520) btnInit, false, 0, 0, false⟩).dataout.getD 0 0 = 4 ∧
    (∀ p : Nat, button_isr false 6000 ⟨true, 0, p⟩ = ⟨false, 6000, (p + 1) % 256⟩) := by
  have h := pressTrain_run 260 (by norm_num)
  norm_num at h
  refine ⟨by rw [h], ?_, ?_⟩
  · rw [h]
    rw [processCommand, if_neg (by decide), if_pos rfl, if_neg (by norm_num)]
    simp [process_button, process_encoder]
  · intro p
    have := button_isr_fall 6000 0 p (by decide)
    simpa [u32, u8] using this

end Firmware
